import Mathlib

set_option maxHeartbeats 1000000

/-!
Verification development for the cover-circuit causality substrate.

The definitions below are shallow embeddings of the Rust sources:
`src/boson.rs` (quorum clock engine), `src/crypto.rs` (crypto provider),
`src/lib.rs` (recursive clock counters), `src/event/session.rs` (event loop
and timers).  The `cops` module (plain vector clock `DefaultVersion`) is not
part of the sources, so it is modelled from the specification text; those
definitions are marked `Modelled from the spec:`.
-/

/- ## Plain vector clock (`cops::DefaultVersion`) -/

/-- Modelled from the spec: `cops::DefaultVersion` (the `cops` module is not in
the sources).  "A default vector clock over a fixed coordinate set"; a `KeyId`
is a small integer index into the coordinate set, here `Fin S`. -/
def DefaultVersion (S : Nat) : Type := Fin S → Nat

instance (S : Nat) : DecidableEq (DefaultVersion S) := by
  unfold DefaultVersion; infer_instance

/-- Modelled from the spec: `DefaultVersion::default()`, the all-zero vector
clock ("Genesis clock — the unique initial clock (all-zero counters)"). -/
def DefaultVersion.default (S : Nat) : DefaultVersion S := fun _ => 0

/-- Modelled from the spec: `DefaultVersion::update(merged, id)`.  "Merging is
coordinate-wise max with the id-coordinate incremented by one." -/
def DefaultVersion.update {S : Nat} (self : DefaultVersion S)
    (merged : List (DefaultVersion S)) (id : Fin S) : DefaultVersion S :=
  fun j => (merged.foldl (fun a v => Nat.max a (v j)) (self j)) +
    (if j = id then 1 else 0)

/-- Modelled from the spec: `DefaultVersion::dep_cmp(other, id)`, "a
per-coordinate comparison that projects the vector-clock partial order onto a
single axis". -/
def DefaultVersion.dep_cmp {S : Nat} (self other : DefaultVersion S)
    (id : Fin S) : Ordering :=
  compare (self id) (other id)

/-- `Ordering::is_le` as used by the client's stale-reply guard. -/
def ordIsLE : Ordering → Bool
  | .lt => true
  | .eq => true
  | .gt => false

/- ## Crypto provider (`src/crypto.rs`)

Signatures are modelled symbolically: a Schnorrkel or secp256k1 signature is
an unforgeable token binding the signing keypair (identified by the node index
whose hardcoded seed generated it) to the digest of the signed message, and a
message's digest is represented by the message itself (`DigestHash` is
injective in the symbolic model). -/

/-- `crypto::Signature` (symbolic). -/
inductive Signature (M : Type) where
  | plain (sig : String)
  | secp256k1 (key : Nat) (msg : M)
  | schnorrkel (key : Nat) (msg : M)
deriving DecidableEq

/-- `crypto::Verifiable<M>`: a message together with a signature over it. -/
structure Verifiable (M : Type) where
  inner : M
  signature : Signature M
deriving DecidableEq

/-- `crypto::PublicKey`. -/
inductive PublicKey where
  | plain (sig : String)
  | secp256k1 (key : Nat)
  | schnorrkel (key : Nat)
deriving DecidableEq

/-- `crypto::CryptoProvider`. -/
inductive CryptoProvider where
  | insecure (sig : String)
  | secp256k1 (key : Nat)
  | schnorrkel (key : Nat)
deriving DecidableEq

/-- `crypto::Crypto`: the provider plus the table of public keys. -/
structure Crypto where
  provider : CryptoProvider
  public_keys : List PublicKey
deriving DecidableEq

/-- `crypto::CryptoFlavor`. -/
inductive CryptoFlavor where
  | plain
  | secp256k1
  | schnorrkel
deriving DecidableEq

instance {ε α : Type} [DecidableEq ε] [DecidableEq α] :
    DecidableEq (Except ε α) := fun a b =>
  match a, b with
  | .ok x, .ok y => decidable_of_iff (x = y) (by simp)
  | .error x, .error y => decidable_of_iff (x = y) (by simp)
  | .ok _, .error _ => .isFalse (fun hc => Except.noConfusion hc)
  | .error _, .ok _ => .isFalse (fun hc => Except.noConfusion hc)

/-- Zero-pad a decimal representation to width 3, as Rust's `{i:03}`. -/
def pad3 (i : Nat) : String :=
  if i < 10 then "00" ++ toString i
  else if i < 100 then "0" ++ toString i
  else toString i

/-- The public-key string of node `i` under the Plain flavor,
`format!("replica-{i:03}")`. -/
def replicaName (i : Nat) : String := "replica-" ++ pad3 i

/-- `Crypto::new_hardcoded(n, index, flavor)`.  Keypairs are deterministically
seeded from `"replica-<id>"`; the keypair of node `i` is represented by the
index `i` itself. -/
def Crypto.new_hardcoded (n : Nat) (index : Nat) (flavor : CryptoFlavor) :
    Crypto :=
  match flavor with
  | .plain =>
    { provider := .insecure (replicaName index)
      public_keys := (List.range n).map (fun i => .plain (replicaName i)) }
  | .secp256k1 =>
    { provider := .secp256k1 index
      public_keys := (List.range n).map (fun i => .secp256k1 i) }
  | .schnorrkel =>
    { provider := .schnorrkel index
      public_keys := (List.range n).map (fun i => .schnorrkel i) }

/-- `Crypto::sign(message)`. -/
def Crypto.sign {M : Type} (self : Crypto) (message : M) : Verifiable M :=
  match self.provider with
  | .insecure sig => ⟨message, .plain sig⟩
  | .secp256k1 key => ⟨message, .secp256k1 key message⟩
  | .schnorrkel key => ⟨message, .schnorrkel key message⟩

/-- Error outcomes of the crypto and clock-verification paths.  Each
constructor corresponds to one distinct `anyhow::bail!`/`ensure!` site (or an
index panic) in the sources. -/
inductive CryptoError where
  | unimplemented
  | badSignature
  | indexPanic
  | certNonEmpty
  | insufficientCert
deriving DecidableEq

/-- The per-entry collection loop inside `Crypto::verify_batched`: each pair of
a signer index and a signed message must resolve to a Schnorrkel public key and
a Schnorrkel signature, otherwise `bail!("unimplemented")`; an out-of-range
index panics on `self.public_keys[index]`.  Collected entries are
`(public key, signature key, signature digest, transcript digest)`. -/
def collectBatch {M : Type} (pks : List PublicKey) :
    List (Nat × Verifiable M) → Except CryptoError (List (Nat × Nat × M × M))
  | [] => .ok []
  | (i, v) :: rest =>
    match pks[i]? with
    | none => .error .indexPanic
    | some (.schnorrkel k) =>
      match v.signature with
      | .schnorrkel sk sm =>
        match collectBatch pks rest with
        | .error e => .error e
        | .ok l => .ok ((k, sk, sm, v.inner) :: l)
      | _ => .error .unimplemented
    | some _ => .error .unimplemented

/-- `schnorrkel::verify_batch`: succeeds iff every collected entry's signature
was produced by the keypair of the declared public key over the transcript. -/
def schnorrkelVerifyBatch {M : Type} [DecidableEq M]
    (entries : List (Nat × Nat × M × M)) : Except CryptoError Unit :=
  if entries.all (fun e => decide (e.2.1 = e.1 ∧ e.2.2.1 = e.2.2.2)) then
    .ok ()
  else
    .error .badSignature

/-- `Crypto::verify_batched(indexes, signed)`: only the Schnorrkel provider
supports it; any other provider fails with `unimplemented`. -/
def Crypto.verify_batched {M : Type} [DecidableEq M] (self : Crypto)
    (indexes : List Nat) (signed : List (Verifiable M)) :
    Except CryptoError Unit :=
  match self.provider with
  | .schnorrkel _ =>
    match collectBatch self.public_keys (indexes.zip signed) with
    | .error e => .error e
    | .ok entries => schnorrkelVerifyBatch entries
  | _ => .error .unimplemented

/- ## Quorum clock engine (`src/boson.rs`) -/

/-- `boson::AnnounceOk { plain, id, signer_id }`. -/
structure AnnounceOk (S : Nat) where
  plain : DefaultVersion S
  id : Fin S
  signer_id : Nat
deriving DecidableEq

/-- `boson::QuorumClock { plain, cert }`. -/
structure QuorumClock (S : Nat) where
  plain : DefaultVersion S
  cert : List (Verifiable (AnnounceOk S))
deriving DecidableEq

/-- `QuorumClock::default()`: the genesis clock. -/
def QuorumClock.default (S : Nat) : QuorumClock S :=
  ⟨DefaultVersion.default S, []⟩

/-- `QuorumClock::verify(num_faulty, crypto)`. -/
def QuorumClock.verify {S : Nat} (self : QuorumClock S) (num_faulty : Nat)
    (crypto : Crypto) : Except CryptoError Unit :=
  if self.plain = DefaultVersion.default S then
    if self.cert.isEmpty then .ok () else .error .certNonEmpty
  else if self.cert.length > num_faulty then
    crypto.verify_batched (self.cert.map (fun v => v.inner.signer_id)) self.cert
  else
    .error .insufficientCert

/-- `boson::Announce<A> { prev, merged, id, addr }`. -/
structure Announce (S : Nat) (A : Type) where
  prev : QuorumClock S
  merged : List (QuorumClock S)
  id : Fin S
  addr : A
deriving DecidableEq

/-- `boson::WorkingAnnounce { prev_plain, replies }`; the `replies` hash map
keyed by `signer_id` is modelled as an association list with unique keys. -/
structure WorkingAnnounce (S : Nat) where
  prev_plain : DefaultVersion S
  replies : List (Nat × Verifiable (AnnounceOk S))
deriving DecidableEq

/-- `boson::QuorumClient` (the `upcall` and `net` ports become the output list
of an event-handler step). -/
structure QuorumClient (S : Nat) (A : Type) where
  addr : A
  num_faulty : Nat
  working_announces : List (Fin S × WorkingAnnounce S)
deriving DecidableEq

/-- The messages a `QuorumClient` handler step emits: `net.send(All, announce)`
and `upcall.send((id, clock))`. -/
inductive ClientOutput (S : Nat) (A : Type) where
  | sendAll (announce : Announce S A)
  | upcall (id : Fin S) (clock : QuorumClock S)
deriving DecidableEq

/-- The error raised by `ensure!(replaced.is_none(), "concurrent announce")`. -/
inductive ClientError where
  | concurrentRequest
deriving DecidableEq

/-- `HashMap` lookup on the association-list model. -/
def alistLookup {κ α : Type} [DecidableEq κ] :
    List (κ × α) → κ → Option α
  | [], _ => none
  | (k', v) :: rest, k => if k' = k then some v else alistLookup rest k

/-- `HashMap::insert`: replaces the value under an existing key (returning the
old value) or appends a fresh binding (returning `none`). -/
def alistInsert {κ α : Type} [DecidableEq κ] (l : List (κ × α)) (k : κ)
    (v : α) : List (κ × α) × Option α :=
  match alistLookup l k with
  | some old => (l.map (fun p => if p.1 = k then (k, v) else p), some old)
  | none => (l ++ [(k, v)], none)

/-- `HashMap::remove` (the removed value is not needed by the model). -/
def alistRemove {κ α : Type} [DecidableEq κ] (l : List (κ × α)) (k : κ) :
    List (κ × α) :=
  l.filter (fun p => !(decide (p.1 = k)))

/-- `QuorumClient::on_event(SubmitAnnounce(prev, merged, id))`: insert a fresh
`WorkingAnnounce`, fail if one was replaced, otherwise broadcast the
`Announce` to `All`.  The mutated state is returned even on failure, since the
Rust handler inserts before the `ensure!`. -/
def onSubmitAnnounce {S : Nat} {A : Type} (self : QuorumClient S A)
    (prev : QuorumClock S) (merged : List (QuorumClock S)) (id : Fin S) :
    QuorumClient S A × List (ClientOutput S A) × Except ClientError Unit :=
  let inserted := alistInsert self.working_announces id ⟨prev.plain, []⟩
  let self' := { self with working_announces := inserted.1 }
  match inserted.2 with
  | some _ => (self', [], .error .concurrentRequest)
  | none => (self', [.sendAll ⟨prev, merged, id, self.addr⟩], .ok ())

/-- `QuorumClient::on_event(Recv(announce_ok))`: drop when the id is not in
flight or the reply does not strictly advance past `prev_plain`; otherwise
record the reply under its signer and, once more than `num_faulty` replies are
collected, remove the entry, assemble the clock and upcall. -/
def onRecvAnnounceOk {S : Nat} {A : Type} (self : QuorumClient S A)
    (announce_ok : Verifiable (AnnounceOk S)) :
    QuorumClient S A × List (ClientOutput S A) × Except ClientError Unit :=
  match alistLookup self.working_announces announce_ok.inner.id with
  | none => (self, [], .ok ())
  | some working_state =>
    if ordIsLE (DefaultVersion.dep_cmp announce_ok.inner.plain
        working_state.prev_plain announce_ok.inner.id) then
      (self, [], .ok ())
    else
      let replies' :=
        (alistInsert working_state.replies announce_ok.inner.signer_id
          announce_ok).1
      if replies'.length > self.num_faulty then
        let removed := alistRemove self.working_announces announce_ok.inner.id
        let self' := { self with working_announces := removed }
        (self', [.upcall announce_ok.inner.id
          ⟨announce_ok.inner.plain, replies'.map Prod.snd⟩], .ok ())
      else
        let ws' := { working_state with replies := replies' }
        let updated :=
          (alistInsert self.working_announces announce_ok.inner.id ws').1
        ({ self with working_announces := updated }, [], .ok ())

/-- An input event delivered to the `QuorumClient` by the event loop. -/
inductive ClientInput (S : Nat) where
  | submit (prev : QuorumClock S) (merged : List (QuorumClock S)) (id : Fin S)
  | recv (announce_ok : Verifiable (AnnounceOk S))

/-- One event-loop delivery to the `QuorumClient`. -/
def clientStep {S : Nat} {A : Type} (self : QuorumClient S A) :
    ClientInput S →
    QuorumClient S A × List (ClientOutput S A) × Except ClientError Unit
  | .submit prev merged id => onSubmitAnnounce self prev merged id
  | .recv announce_ok => onRecvAnnounceOk self announce_ok

/-- Run the client over a FIFO list of inputs, collecting the emitted outputs;
a handler error terminates the loop (errors bubble out of `Session::run`). -/
def clientRun {S : Nat} {A : Type} (self : QuorumClient S A) :
    List (ClientInput S) → QuorumClient S A × List (ClientOutput S A)
  | [] => (self, [])
  | input :: rest =>
    let step := clientStep self input
    match step.2.2 with
    | .error _ => (step.1, step.2.1)
    | .ok () =>
      let next := clientRun step.1 rest
      (next.1, step.2.1 ++ next.2)

/- ## Recursive clock counters (`src/lib.rs`) -/

/-- Failure cases of `Clock::update`: `nth(index)` out of bounds (reported as
`anyhow!("out of bound index")` before proving), and u32 overflow of
`max(self_i, other_i) + 1` (a Rust arithmetic-overflow panic, so no clock is
produced). -/
inductive ClockError where
  | outOfBound (index : Nat)
  | overflow
deriving DecidableEq

/-- The counter semantics of `Clock::update(index, secret, other)`: the new
counter is `max(self_i, other_i) + 1`; the output counters (the public inputs
of the new proof, as enforced by the inductive circuit and re-checked by the
function's trailing `assert!`) are the coordinate-wise max of the two input
counter vectors, except the new counter at `index`.  Counters are u32 values
decoded by `Clock::counters`; both clocks carry exactly `S` counters.  The
`secret` witness does not influence the counters (a wrong preimage only makes
proving fail, so no clock is produced), hence it is not a parameter here. -/
def clockUpdate (self other : List Nat) (index : Nat) :
    Except ClockError (List Nat) :=
  match self[index]?, other[index]? with
  | some a, some b =>
    if a.max b + 1 < 2 ^ 32 then
      .ok ((List.range self.length).map fun j =>
        if j = index then a.max b + 1
        else (self.getD j 0).max (other.getD j 0))
    else
      .error .overflow
  | _, _ => .error (.outOfBound index)

/- ## Event loop and timers (`src/event/session.rs`) -/

/-- `SessionTimer`: the monotone timer-id counter `id` and the keys of the
`handles` map (timer ids whose abort handle is still present, i.e. live). -/
structure SessionTimer where
  id : Nat
  handles : List Nat
deriving DecidableEq

/-- The error of `unset` on an unknown id (`"timer not exists"`). -/
inductive TimerError where
  | timerMissing
deriving DecidableEq

/-- `SessionTimer::set(period)`: increment the id counter, spawn the periodic
timer task (not modelled further) and record its abort handle under the new
id.  Returns the fresh `TimerId`. -/
def timerSet (t : SessionTimer) : SessionTimer × Nat :=
  let timer_id := t.id + 1
  ({ id := timer_id, handles := timer_id :: t.handles }, timer_id)

/-- `SessionTimer::unset(timer_id)`: remove the abort handle (failing when the
id is unknown) and abort the task.  The abort is asynchronous: fires already
enqueued in the event channel survive and are filtered at delivery time. -/
def timerUnset (t : SessionTimer) (timer_id : Nat) :
    Except TimerError SessionTimer :=
  if timer_id ∈ t.handles then
    .ok { t with handles := t.handles.filter (fun h => !(decide (h = timer_id))) }
  else
    .error .timerMissing

/-- A timer operation a handler may perform during `on_event`/`on_timer`. -/
inductive TimerAction where
  | set
  | unset (timer_id : Nat)

/-- Apply one handler-issued timer operation (a failed `unset` leaves the
timer state unchanged; the handler error is not relevant to liveness). -/
def applyTimerAction (t : SessionTimer) : TimerAction → SessionTimer
  | .set => (timerSet t).1
  | .unset i =>
    match timerUnset t i with
    | .ok t' => t'
    | .error _ => t

/-- Apply a handler's sequence of timer operations. -/
def applyTimerActions (t : SessionTimer) (acts : List TimerAction) :
    SessionTimer :=
  acts.foldl applyTimerAction t

/-- One queued event of the `Session::run` loop: `Event::Timer(id)` or
`Event::Other(_)`. -/
inductive SessionEvent where
  | timer (timer_id : Nat)
  | other

/-- One iteration of `Session::run`: an `Event::Timer(timer_id)` is delivered
to `state.on_timer` only when `timer.handles` still contains the id (the
unset/timeout-contention check); a dead id is skipped with `continue`.  A
delivered handler mutates the timer through its list of actions.  Returns the
new timer state and the timer id delivered to `on_timer`, if any. -/
def sessionDeliver (t : SessionTimer) (ev : SessionEvent)
    (acts : List TimerAction) : SessionTimer × Option Nat :=
  match ev with
  | .timer timer_id =>
    if timer_id ∈ t.handles then (applyTimerActions t acts, some timer_id)
    else (t, none)
  | .other => (applyTimerActions t acts, none)

/-- Run the loop over a queue of events (each with the actions its handler
performs), collecting every timer id delivered to `on_timer`. -/
def sessionRun (t : SessionTimer) :
    List (SessionEvent × List TimerAction) → SessionTimer × List Nat
  | [] => (t, [])
  | (ev, acts) :: rest =>
    let d := sessionDeliver t ev acts
    let next := sessionRun d.1 rest
    (next.1, d.2.toList ++ next.2)

/-- The liveness bound of a reachable `SessionTimer`: every live handle was
issued by `set`, so its id is at most the current counter. -/
def handlesBounded (t : SessionTimer) : Prop :=
  ∀ h ∈ t.handles, h ≤ t.id

/-- The state of an unset timer id: not live, and never reissued because the
counter only grows. -/
def timerDead (t : SessionTimer) (i : Nat) : Prop :=
  i ∉ t.handles ∧ i ≤ t.id ∧ handlesBounded t

/- ## Message digests (`src/crypto.rs`, `ImplHasher`) -/

/-- Host byte order. -/
inductive Endian where
  | little
  | big

/-- The `w` little-endian bytes of `v` (`to_le_bytes`). -/
def natLEBytes : Nat → Nat → List Nat
  | 0, _ => []
  | w + 1, v => v % 256 :: natLEBytes w (v / 256)

/-- `to_ne_bytes`: host-native byte order — what the default
`Hasher::write_uN` implementations would feed into the digest.  `ImplHasher`
overrides them precisely to avoid this host dependence. -/
def natNEBytes (host : Endian) (w v : Nat) : List Nat :=
  match host with
  | .little => natLEBytes w v
  | .big => (natLEBytes w v).reverse

/-- `to_le_bytes` of a signed integer (two's complement). -/
def intLEBytes (w : Nat) (v : Int) : List Nat :=
  natLEBytes w ((v % (2 ^ (8 * w))).toNat)

/-- One primitive `Hasher` write call issued while structurally hashing a
message (`derive(Hash)` reduces any message to such a sequence). -/
inductive HashWrite where
  | u16 (v : Nat)
  | u32 (v : Nat)
  | u64 (v : Nat)
  | usize (v : Nat)
  | i16 (v : Int)
  | i32 (v : Int)
  | i64 (v : Int)
  | isize (v : Int)
  | bytes (bs : List Nat)

/-- `ImplHasher`'s write methods: every primitive integer is written with
`to_le_bytes` regardless of the host byte order (the `host` parameter is
deliberately ignored by the integer cases, mirroring the source); raw byte
slices (`Hasher::write`) pass through unchanged. -/
def implHasherWrite (_host : Endian) : HashWrite → List Nat
  | .u16 v => natLEBytes 2 v
  | .u32 v => natLEBytes 4 v
  | .u64 v => natLEBytes 8 v
  | .usize v => natLEBytes 8 v
  | .i16 v => intLEBytes 2 v
  | .i32 v => intLEBytes 4 v
  | .i64 v => intLEBytes 8 v
  | .isize v => intLEBytes 8 v
  | .bytes bs => bs

/-- The byte stream fed to SHA-256 by `DigestHash::sha256` for a message whose
structural hash issues the write calls `m`. -/
def digestByteStream (host : Endian) (m : List HashWrite) : List Nat :=
  (m.map (implHasherWrite host)).flatten

/- ## Proof-side predicates and concrete scenario S1 -/

/-- The public-key table of `new_hardcoded(n, _, Schnorrkel)`. -/
def pksSchnorrkel (n : Nat) : List PublicKey :=
  (List.range n).map (fun i => PublicKey.schnorrkel i)

/-- A signer-index/signed-message pair whose signature verifies under the
hardcoded Schnorrkel key table of size `n`. -/
def goodPair {S : Nat} (n : Nat) (p : Nat × Verifiable (AnnounceOk S)) :
    Prop :=
  p.1 < n ∧ p.2.signature = Signature.schnorrkel p.1 p.2.inner

/-- Scenario S1: the plain clock `default.update([], 7)` signed by the
servers (coordinate set of size 8, request id 7). -/
def sc_plain7 : DefaultVersion 8 :=
  DefaultVersion.update (DefaultVersion.default 8) [] 7

/-- Scenario S1: server `j`'s `AnnounceOk`. -/
def sc_ok (j : Nat) : AnnounceOk 8 := ⟨sc_plain7, 7, j⟩

/-- Scenario S1: server `j`'s signed reply under the Plain flavor. -/
def sc_reply (j : Nat) : Verifiable (AnnounceOk 8) :=
  (Crypto.new_hardcoded 4 j CryptoFlavor.plain).sign (sc_ok j)

/-- Scenario S1: the quorum client with `num_faulty = 1` and no in-flight
announce. -/
def sc_client0 : QuorumClient 8 Unit := ⟨(), 1, []⟩

/-- Scenario S1: submit `(prev = genesis, merged = [], id = 7)`, then deliver
the four servers' replies in signer order. -/
def sc_inputs : List (ClientInput 8) :=
  [ClientInput.submit (QuorumClock.default 8) [] 7,
   ClientInput.recv (sc_reply 0), ClientInput.recv (sc_reply 1),
   ClientInput.recv (sc_reply 2), ClientInput.recv (sc_reply 3)]

/-- The clock the scenario-S1 client upcalls: `plain = default.update([], 7)`
with the first two replies as certificate. -/
def sc_clock2 : QuorumClock 8 := ⟨sc_plain7, [sc_reply 0, sc_reply 1]⟩

/-- Scenario S1 under the Schnorrkel flavor: server `j`'s signed reply. -/
def sc_sreply (j : Nat) : Verifiable (AnnounceOk 8) :=
  (Crypto.new_hardcoded 4 j CryptoFlavor.schnorrkel).sign (sc_ok j)

/-- A two-entry Schnorrkel-signed clock from distinct signers 0 and 1. -/
def sc_sclock2 : QuorumClock 8 := ⟨sc_plain7, [sc_sreply 0, sc_sreply 1]⟩

/-- A clock whose certificate lists the same valid entry of signer 1 twice. -/
def sc_dupclock : QuorumClock 8 := ⟨sc_plain7, [sc_sreply 1, sc_sreply 1]⟩

/- ## Helper lemmas -/

lemma getElem?_range_map {α : Type} (f : Nat → α) (n j : Nat) :
    ((List.range n).map f)[j]? = if j < n then some (f j) else none := by
  by_cases h : j < n
  · simp [List.getElem?_map, List.getElem?_range, h]
  · simp [List.getElem?_map, List.getElem?_eq_none, List.length_range,
      Nat.not_lt.mp h, h]

lemma pksSchnorrkel_get (n j : Nat) :
    (pksSchnorrkel n)[j]? =
      if j < n then some (PublicKey.schnorrkel j) else none :=
  getElem?_range_map _ n j

lemma zip_map_self {α β : Type} (f : α → β) (l : List α) :
    (l.map f).zip l = l.map (fun x => (f x, x)) := by
  induction l with
  | nil => rfl
  | cons x xs ih => simp [ih]

lemma schnorrkelVerifyBatch_ok_iff {M : Type} [DecidableEq M]
    (es : List (Nat × Nat × M × M)) :
    schnorrkelVerifyBatch es = Except.ok () ↔
      (es.all fun e => decide (e.2.1 = e.1 ∧ e.2.2.1 = e.2.2.2)) = true := by
  unfold schnorrkelVerifyBatch
  split
  · rename_i hall
    simp only [hall, iff_true]
  · rename_i hall
    simp only [hall]
    constructor
    · intro hc; exact absurd hc (by simp)
    · intro hc; exact absurd hc (by simp [hall])

lemma collect_then_batch_iff {S : Nat} (n : Nat)
    (ps : List (Nat × Verifiable (AnnounceOk S))) :
    (match collectBatch (pksSchnorrkel n) ps with
      | .error e => Except.error e
      | .ok es => schnorrkelVerifyBatch es) = Except.ok () ↔
    ∀ p ∈ ps, goodPair n p := by
  induction ps with
  | nil => simp [collectBatch, schnorrkelVerifyBatch]
  | cons p rest ih =>
    obtain ⟨i, v⟩ := p
    by_cases hi : i < n
    · have hg : (pksSchnorrkel n)[i]? = some (PublicKey.schnorrkel i) := by
        simp [pksSchnorrkel_get, hi]
      cases hs : v.signature with
      | plain s =>
        simp only [collectBatch, hg, hs]
        simp [goodPair, hs]
      | secp256k1 k m =>
        simp only [collectBatch, hg, hs]
        simp [goodPair, hs]
      | schnorrkel sk sm =>
        simp only [collectBatch, hg, hs]
        cases cr : collectBatch (pksSchnorrkel n) rest with
        | error e =>
          simp only [cr] at ih ⊢
          simp only [List.forall_mem_cons]
          constructor
          · intro hc; exact absurd hc (by simp)
          · intro hc; exact absurd (ih.mpr hc.2) (by simp)
        | ok es =>
          simp only [cr] at ih ⊢
          rw [schnorrkelVerifyBatch_ok_iff] at ih ⊢
          simp only [List.forall_mem_cons, List.all_cons, Bool.and_eq_true,
            decide_eq_true_eq, goodPair, hs]
          rw [ih]
          constructor
          · intro ⟨⟨h1, h2⟩, h3⟩
            exact ⟨⟨hi, by rw [h1, h2]⟩, h3⟩
          · intro ⟨⟨_, hsig⟩, h3⟩
            injection hsig with h1 h2
            exact ⟨⟨h1, h2⟩, h3⟩
    · have hg : (pksSchnorrkel n)[i]? = none := by
        simp [pksSchnorrkel_get, hi]
      simp only [collectBatch, hg]
      simp only [List.forall_mem_cons, goodPair]
      constructor
      · intro hc; exact absurd hc (by simp)
      · intro hc; exact absurd hc.1.1 hi

lemma new_hardcoded_schnorrkel_keys (n idx : Nat) :
    (Crypto.new_hardcoded n idx CryptoFlavor.schnorrkel).public_keys =
      pksSchnorrkel n := rfl

lemma forall_mem_map_pair {S : Nat} (n : Nat)
    (cert : List (Verifiable (AnnounceOk S))) :
    (∀ p ∈ cert.map (fun v => (v.inner.signer_id, v)), goodPair n p) ↔
      ∀ e ∈ cert, e.inner.signer_id < n ∧
        e.signature = Signature.schnorrkel e.inner.signer_id e.inner := by
  constructor
  · intro h e he
    exact h (e.inner.signer_id, e) (List.mem_map_of_mem _ he)
  · intro h p hp
    obtain ⟨e, he, rfl⟩ := List.mem_map.mp hp
    exact h e he

lemma verify_batched_schnorrkel_iff {S : Nat} (n idx : Nat)
    (cert : List (Verifiable (AnnounceOk S))) :
    (Crypto.new_hardcoded n idx CryptoFlavor.schnorrkel).verify_batched
        (cert.map fun v => v.inner.signer_id) cert = Except.ok () ↔
      ∀ e ∈ cert, e.inner.signer_id < n ∧
        e.signature = Signature.schnorrkel e.inner.signer_id e.inner := by
  have hp : (Crypto.new_hardcoded n idx CryptoFlavor.schnorrkel).provider =
      CryptoProvider.schnorrkel idx := rfl
  have h := collect_then_batch_iff n (cert.map fun v => (v.inner.signer_id, v))
  simp only [Crypto.verify_batched, hp, new_hardcoded_schnorrkel_keys,
    zip_map_self]
  cases hcb : collectBatch (pksSchnorrkel n)
      (cert.map fun v => (v.inner.signer_id, v)) with
  | error e =>
    rw [hcb] at h
    exact h.trans (forall_mem_map_pair n cert)
  | ok es =>
    rw [hcb] at h
    exact h.trans (forall_mem_map_pair n cert)

lemma verify_schnorrkel_ok_iff {S : Nat} (n idx f : Nat)
    (clock : QuorumClock S) (hng : clock.plain ≠ DefaultVersion.default S) :
    clock.verify f (Crypto.new_hardcoded n idx CryptoFlavor.schnorrkel) =
        Except.ok () ↔
      clock.cert.length > f ∧ ∀ e ∈ clock.cert, e.inner.signer_id < n ∧
        e.signature = Signature.schnorrkel e.inner.signer_id e.inner := by
  unfold QuorumClock.verify
  rw [if_neg hng]
  by_cases hlen : clock.cert.length > f
  · rw [if_pos hlen, verify_batched_schnorrkel_iff]
    simp [hlen]
  · rw [if_neg hlen]
    simp [hlen]

lemma alistLookup_append_none {κ α : Type} [DecidableEq κ]
    (l : List (κ × α)) (k : κ) (v : α) (h : alistLookup l k = none) :
    alistLookup (l ++ [(k, v)]) k = some v := by
  induction l with
  | nil => simp [alistLookup]
  | cons p rest ih =>
    rw [alistLookup] at h
    by_cases hk : p.1 = k
    · simp [hk] at h
    · rw [List.cons_append, alistLookup]
      simp only [hk, if_false]
      exact ih (by simpa [hk] using h)

lemma alistLookup_map_replace {κ α : Type} [DecidableEq κ]
    (l : List (κ × α)) (k : κ) (v : α) (old : α)
    (h : alistLookup l k = some old) :
    alistLookup (l.map (fun p => if p.1 = k then (k, v) else p)) k =
      some v := by
  induction l with
  | nil => simp [alistLookup] at h
  | cons p rest ih =>
    rw [alistLookup] at h
    by_cases hk : p.1 = k
    · rw [List.map_cons, if_pos hk, alistLookup]
      simp
    · rw [List.map_cons]
      simp only [hk, if_false]
      rw [alistLookup]
      simp only [hk, if_false]
      exact ih (by simpa [hk] using h)

lemma alistLookup_insert {κ α : Type} [DecidableEq κ]
    (l : List (κ × α)) (k : κ) (v : α) :
    alistLookup (alistInsert l k v).1 k = some v := by
  unfold alistInsert
  cases h : alistLookup l k with
  | none => exact alistLookup_append_none l k v h
  | some old => exact alistLookup_map_replace l k v old h

lemma timerDead_applyTimerAction {t : SessionTimer} {i : Nat}
    (hd : timerDead t i) (a : TimerAction) :
    timerDead (applyTimerAction t a) i := by
  obtain ⟨h1, h2, h3⟩ := hd
  cases a with
  | set =>
    refine ⟨?_, ?_, ?_⟩
    · intro hmem
      simp only [applyTimerAction, timerSet, List.mem_cons] at hmem
      rcases hmem with hmem | hmem
      · omega
      · exact h1 hmem
    · simp only [applyTimerAction, timerSet]
      omega
    · intro h hm
      simp only [applyTimerAction, timerSet, List.mem_cons] at hm
      simp only [applyTimerAction, timerSet]
      rcases hm with hm | hm
      · omega
      · exact Nat.le_succ_of_le (h3 h hm)
  | unset j =>
    by_cases hj : j ∈ t.handles
    · have key : applyTimerAction t (TimerAction.unset j) =
          { t with handles := t.handles.filter (fun h => !(decide (h = j))) } := by
        simp [applyTimerAction, timerUnset, hj]
      rw [key]
      refine ⟨?_, h2, ?_⟩
      · intro hmem
        exact h1 (List.mem_of_mem_filter hmem)
      · intro h hm
        exact h3 h (List.mem_of_mem_filter hm)
    · have key : applyTimerAction t (TimerAction.unset j) = t := by
        simp [applyTimerAction, timerUnset, hj]
      rw [key]
      exact ⟨h1, h2, h3⟩

lemma timerDead_applyTimerActions {t : SessionTimer} {i : Nat}
    (hd : timerDead t i) (acts : List TimerAction) :
    timerDead (applyTimerActions t acts) i := by
  induction acts generalizing t with
  | nil => exact hd
  | cons a rest ih =>
    exact ih (timerDead_applyTimerAction hd a)

lemma timerDead_sessionRun {i : Nat}
    (trace : List (SessionEvent × List TimerAction)) :
    ∀ t : SessionTimer, timerDead t i → i ∉ (sessionRun t trace).2 := by
  induction trace with
  | nil =>
    intro t _
    simp [sessionRun]
  | cons p rest ih =>
    intro t hd
    obtain ⟨ev, acts⟩ := p
    cases ev with
    | timer tid =>
      by_cases hm : tid ∈ t.handles
      · have hne : tid ≠ i := fun hc => hd.1 (hc ▸ hm)
        simp only [sessionRun, sessionDeliver, if_pos hm, Option.toList_some,
          List.cons_append, List.nil_append, List.mem_cons]
        intro hc
        rcases hc with hc | hc
        · exact hne hc.symm
        · exact ih _ (timerDead_applyTimerActions hd acts) hc
      · simp only [sessionRun, sessionDeliver, if_neg hm, Option.toList_none,
          List.nil_append]
        exact ih _ hd
    | other =>
      simp only [sessionRun, sessionDeliver, Option.toList_none,
        List.nil_append]
      exact ih _ (timerDead_applyTimerActions hd acts)

/- ## Claim theorems -/

/-- C1 (counterexample): in scenario S1 with `f = 1` the client already
upcalls `(7, clock)` upon the 2nd reply, with `|clock.cert| = 2` — not upon
the 3rd reply with three certificate entries, as claimed. -/
theorem c1_upcall_counterexample :
    clientRun sc_client0
        [ClientInput.submit (QuorumClock.default 8) [] 7,
         ClientInput.recv (sc_reply 0), ClientInput.recv (sc_reply 1)] =
      (⟨(), 1, []⟩,
       [ClientOutput.sendAll ⟨QuorumClock.default 8, [], 7, ()⟩,
        ClientOutput.upcall 7 sc_clock2]) ∧
    sc_clock2.cert.length = 2 := by
  exact ⟨by decide, rfl⟩

/-- C1 (amended): in scenario S1 (`f = 1`, four servers, submit
`(genesis, [], 7)`, replies from distinct signers 0..3) the client upcalls
`(7, clock)` exactly upon the 2nd reply, with `|clock.cert| = 2` and
`clock.plain = default.update([], 7)`; both subsequent replies are discarded
without effect (no further outputs, and the working entry stays removed). -/
theorem c1_second_reply_upcall :
    clientRun sc_client0 sc_inputs =
      (sc_client0,
       [ClientOutput.sendAll ⟨QuorumClock.default 8, [], 7, ()⟩,
        ClientOutput.upcall 7 sc_clock2]) ∧
    sc_clock2.cert.length = 2 ∧
    sc_clock2.plain = DefaultVersion.update (DefaultVersion.default 8) [] 7 := by
  exact ⟨by decide, rfl, rfl⟩

/-- C2 (counterexample): the clock assembled by the correct client in
scenario S1 under the Plain crypto flavor does not verify: `verify(1, crypto)`
fails with `unimplemented` because `verify_batched` is attempted with a
provider that does not support it. -/
theorem c2_plain_flavor_counterexample :
    sc_clock2.verify 1 (Crypto.new_hardcoded 4 0 CryptoFlavor.plain) =
      Except.error CryptoError.unimplemented ∧
    sc_clock2.plain ≠ DefaultVersion.default 8 ∧
    sc_clock2.cert.length = 2 := by
  exact ⟨by decide, by decide, rfl⟩

/-- C2 (amended): batched signature verification is attempted unconditionally.
Under the Schnorrkel flavor every non-genesis clock whose certificate entries
are replies signed by the hardcoded signers they name (with `|cert| > f`)
verifies OK; under the Plain flavor verification of every non-genesis clock
with `|cert| > f` fails with `unimplemented`. -/
theorem c2_verify_flavor_dependent :
    (∀ (S n idx f : Nat) (clock : QuorumClock S),
        clock.plain ≠ DefaultVersion.default S →
        clock.cert.length > f →
        (∀ e ∈ clock.cert, ∃ j, j < n ∧ e.inner.signer_id = j ∧
          e = (Crypto.new_hardcoded n j CryptoFlavor.schnorrkel).sign e.inner) →
        clock.verify f (Crypto.new_hardcoded n idx CryptoFlavor.schnorrkel) =
          Except.ok ()) ∧
    (∀ (S n idx f : Nat) (clock : QuorumClock S),
        clock.plain ≠ DefaultVersion.default S →
        clock.cert.length > f →
        clock.verify f (Crypto.new_hardcoded n idx CryptoFlavor.plain) =
          Except.error CryptoError.unimplemented) := by
  constructor
  · intro S n idx f clock hng hlen hsig
    rw [verify_schnorrkel_ok_iff n idx f clock hng]
    refine ⟨hlen, ?_⟩
    intro e he
    obtain ⟨j, hj, hsid, he⟩ := hsig e he
    have hsg : (Crypto.new_hardcoded n j CryptoFlavor.schnorrkel).sign e.inner =
        ⟨e.inner, Signature.schnorrkel j e.inner⟩ := rfl
    rw [hsg] at he
    have hs := congrArg Verifiable.signature he
    simp only at hs
    constructor
    · rw [hsid]; exact hj
    · rw [hs, hsid]
  · intro S n idx f clock hng hlen
    unfold QuorumClock.verify
    rw [if_neg hng, if_pos hlen]
    rfl

/-- C2 witness: the amended theorem applied to the concrete Schnorrkel clock
of scenario S1 and to the concrete Plain-flavor clock. -/
theorem c2_verify_flavor_dependent_witness :
    sc_sclock2.verify 1 (Crypto.new_hardcoded 4 0 CryptoFlavor.schnorrkel) =
      Except.ok () ∧
    sc_clock2.verify 1 (Crypto.new_hardcoded 4 0 CryptoFlavor.plain) =
      Except.error CryptoError.unimplemented :=
  ⟨c2_verify_flavor_dependent.1 8 4 0 1 sc_sclock2 (by decide) (by decide)
      (by
        intro e he
        simp only [sc_sclock2, List.mem_cons, List.not_mem_nil,
          or_false] at he
        rcases he with rfl | rfl
        · exact ⟨0, by decide, rfl, rfl⟩
        · exact ⟨1, by decide, rfl, rfl⟩),
   c2_verify_flavor_dependent.2 8 4 0 1 sc_clock2 (by decide) (by decide)⟩

/-- C3 (counterexample): a clock whose certificate repeats the same validly
signed entry of signer 1 twice is accepted by `verify(1, crypto)` under the
Schnorrkel flavor, although its signer ids are not distinct. -/
theorem c3_duplicate_signer_counterexample :
    sc_dupclock.verify 1 (Crypto.new_hardcoded 4 0 CryptoFlavor.schnorrkel) =
      Except.ok () ∧
    ¬ (sc_dupclock.cert.map (fun v => v.inner.signer_id)).Nodup := by
  exact ⟨by decide, by decide⟩

/-- C3 (amended): for every non-genesis QuorumClock accepted by
`verify(f, crypto)` under the Schnorrkel flavor, `|cert| > f` and every
certificate entry's signature verifies under its declared `signer_id` (a
valid key index); distinctness of signer ids and equality of `plain`/`id`
across entries are not enforced. -/
theorem c3_accepted_cert_entries {S n idx f : Nat} (clock : QuorumClock S)
    (hng : clock.plain ≠ DefaultVersion.default S)
    (hok : clock.verify f (Crypto.new_hardcoded n idx CryptoFlavor.schnorrkel) =
      Except.ok ()) :
    clock.cert.length > f ∧
    ∀ e ∈ clock.cert, e.inner.signer_id < n ∧
      e.signature = Signature.schnorrkel e.inner.signer_id e.inner :=
  (verify_schnorrkel_ok_iff n idx f clock hng).mp hok

/-- C3 witness: the amended theorem applied to the accepted duplicate-signer
clock. -/
theorem c3_accepted_cert_entries_witness :
    sc_dupclock.cert.length > 1 ∧
    ((sc_sreply 1).inner.signer_id < 4 ∧
      (sc_sreply 1).signature =
        Signature.schnorrkel (sc_sreply 1).inner.signer_id (sc_sreply 1).inner) :=
  have h := @c3_accepted_cert_entries 8 4 0 1 sc_dupclock (by decide)
    (by decide)
  ⟨h.1, h.2 (sc_sreply 1) (by decide)⟩

/-- C4: whenever `Clock::update(i, σ, other)` successfully produces a clock,
its counters are `max(self_i, other_i) + 1` at the updated coordinate and the
coordinate-wise max everywhere else. -/
theorem c4_update_counters {s o out : List Nat} {i : Nat}
    (h : clockUpdate s o i = Except.ok out) :
    out[i]? = some ((s.getD i 0).max (o.getD i 0) + 1) ∧
    ∀ j, j ≠ i → j < s.length →
      out[j]? = some ((s.getD j 0).max (o.getD j 0)) := by
  unfold clockUpdate at h
  split at h
  · rename_i a b heq1 heq2
    split at h
    · rename_i hlt
      injection h with h
      subst h
      have hlen : i < s.length := by
        by_contra hc
        rw [List.getElem?_eq_none (Nat.le_of_not_lt hc)] at heq1
        cases heq1
      have hga : s.getD i 0 = a := by
        rw [List.getD_eq_getElem?_getD, heq1]; rfl
      have hgb : o.getD i 0 = b := by
        rw [List.getD_eq_getElem?_getD, heq2]; rfl
      constructor
      · rw [getElem?_range_map, if_pos hlen, if_pos rfl, hga, hgb]
      · intro j hj hjlen
        rw [getElem?_range_map, if_pos hjlen, if_neg hj]
    · exact absurd h (by simp)
  · exact absurd h (by simp)

/-- C4 witness: `clockUpdate [1,2,0] [0,5,1] 0 = [2,5,1]`, checked at the
updated coordinate 0 and the merged coordinate 1. -/
theorem c4_update_counters_witness :
    (([2, 5, 1] : List Nat)[0]? =
      some ((([1, 2, 0] : List Nat).getD 0 0).max
        (([0, 5, 1] : List Nat).getD 0 0) + 1)) ∧
    (([2, 5, 1] : List Nat)[1]? =
      some ((([1, 2, 0] : List Nat).getD 1 0).max
        (([0, 5, 1] : List Nat).getD 1 0))) :=
  have h : clockUpdate [1, 2, 0] [0, 5, 1] 0 = Except.ok [2, 5, 1] := by decide
  ⟨(c4_update_counters h).1, (c4_update_counters h).2 1 (by decide) (by decide)⟩

/-- C5: `verify(f, crypto)` accepts the genesis clock (default plain, empty
cert) and rejects every non-genesis clock with at most `f` certificate
entries with the insufficient-certificate error. -/
theorem c5_genesis_ok_insufficient_cert {S : Nat} (f : Nat) (crypto : Crypto)
    (clock : QuorumClock S) (hng : clock.plain ≠ DefaultVersion.default S)
    (hle : clock.cert.length ≤ f) :
    (QuorumClock.default S).verify f crypto = Except.ok () ∧
    clock.verify f crypto = Except.error CryptoError.insufficientCert := by
  constructor
  · unfold QuorumClock.verify
    rw [if_pos (show (QuorumClock.default S).plain =
      DefaultVersion.default S from rfl)]
    rfl
  · unfold QuorumClock.verify
    rw [if_neg hng, if_neg (by omega)]

/-- C5 witness: the theorem applied at `f = 1` to a non-genesis clock with an
empty certificate under the Plain-flavor crypto. -/
theorem c5_genesis_ok_insufficient_cert_witness :
    (QuorumClock.default 8).verify 1
      (Crypto.new_hardcoded 4 0 CryptoFlavor.plain) = Except.ok () ∧
    (⟨sc_plain7, []⟩ : QuorumClock 8).verify 1
      (Crypto.new_hardcoded 4 0 CryptoFlavor.plain) =
      Except.error CryptoError.insufficientCert :=
  c5_genesis_ok_insufficient_cert 1 (Crypto.new_hardcoded 4 0 CryptoFlavor.plain)
    ⟨sc_plain7, []⟩ (by decide) (by decide)

/-- C6: a reply for an in-flight id whose plain does not strictly advance past
the stored `prev_plain` (`dep_cmp ≤ 0`) is dropped before being counted: the
handler returns with the client state unchanged, no outputs and no error. -/
theorem c6_stale_reply_dropped {S : Nat} {A : Type} (c : QuorumClient S A)
    (m : Verifiable (AnnounceOk S)) (w : WorkingAnnounce S)
    (h1 : alistLookup c.working_announces m.inner.id = some w)
    (h2 : ordIsLE (DefaultVersion.dep_cmp m.inner.plain w.prev_plain
      m.inner.id) = true) :
    onRecvAnnounceOk c m = (c, [], Except.ok ()) := by
  simp only [onRecvAnnounceOk, h1]
  rw [if_pos h2]

/-- C6 witness: a client holding a working announce for id 7 with
`prev_plain = default.update([], 7)` drops a replayed reply carrying that same
plain. -/
theorem c6_stale_reply_dropped_witness :
    onRecvAnnounceOk
        (⟨(), 1, [(7, ⟨sc_plain7, []⟩)]⟩ : QuorumClient 8 Unit)
        (sc_reply 0) =
      ((⟨(), 1, [(7, ⟨sc_plain7, []⟩)]⟩ : QuorumClient 8 Unit), [],
        Except.ok ()) :=
  c6_stale_reply_dropped _ _ ⟨sc_plain7, []⟩ (by decide) (by decide)

/-- C7: a `SubmitAnnounce` on a fresh id succeeds and broadcasts the
`Announce` to `All`, while a second `SubmitAnnounce` on the same id with no
intervening completion fails with the concurrent-request error. -/
theorem c7_concurrent_submit_rejected {S : Nat} {A : Type}
    (c : QuorumClient S A) (prev prev' : QuorumClock S)
    (merged merged' : List (QuorumClock S)) (id : Fin S)
    (h : alistLookup c.working_announces id = none) :
    (onSubmitAnnounce c prev merged id).2.2 = Except.ok () ∧
    (onSubmitAnnounce c prev merged id).2.1 =
      [ClientOutput.sendAll ⟨prev, merged, id, c.addr⟩] ∧
    (onSubmitAnnounce (onSubmitAnnounce c prev merged id).1 prev' merged'
        id).2.2 = Except.error ClientError.concurrentRequest := by
  have h1 : alistInsert c.working_announces id ⟨prev.plain, []⟩ =
      (c.working_announces ++ [(id, ⟨prev.plain, []⟩)], none) := by
    unfold alistInsert
    rw [h]
  have h2 : alistLookup (c.working_announces ++ [(id, ⟨prev.plain, []⟩)]) id =
      some ⟨prev.plain, []⟩ := alistLookup_append_none _ _ _ h
  have hstate : (onSubmitAnnounce c prev merged id).1 =
      { c with working_announces :=
        c.working_announces ++ [(id, ⟨prev.plain, []⟩)] } := by
    simp only [onSubmitAnnounce, h1]
  have h3 : alistInsert
      (c.working_announces ++ [(id, (⟨prev.plain, []⟩ : WorkingAnnounce S))])
      id (⟨prev'.plain, []⟩ : WorkingAnnounce S) =
      ((c.working_announces ++
          [(id, (⟨prev.plain, []⟩ : WorkingAnnounce S))]).map
        (fun p => if p.1 = id
          then (id, (⟨prev'.plain, []⟩ : WorkingAnnounce S)) else p),
       some (⟨prev.plain, []⟩ : WorkingAnnounce S)) := by
    unfold alistInsert
    rw [h2]
  refine ⟨?_, ?_, ?_⟩
  · simp only [onSubmitAnnounce, h1]
  · simp only [onSubmitAnnounce, h1]
  · rw [hstate]
    simp only [onSubmitAnnounce, h3]

/-- C7 witness: the theorem applied to the empty scenario-S1 client with
id 7. -/
theorem c7_concurrent_submit_rejected_witness :
    (onSubmitAnnounce sc_client0 (QuorumClock.default 8) [] 7).2.2 =
      Except.ok () ∧
    (onSubmitAnnounce sc_client0 (QuorumClock.default 8) [] 7).2.1 =
      [ClientOutput.sendAll ⟨QuorumClock.default 8, [], 7, ()⟩] ∧
    (onSubmitAnnounce (onSubmitAnnounce sc_client0 (QuorumClock.default 8) []
        7).1 (QuorumClock.default 8) [] 7).2.2 =
      Except.error ClientError.concurrentRequest :=
  c7_concurrent_submit_rejected sc_client0 (QuorumClock.default 8)
    (QuorumClock.default 8) [] [] 7 (by decide)

/-- C8: when a second `SubmitAnnounce` arrives for an id already in flight,
the handler first replaces the stored `WorkingAnnounce` with a fresh one
(`prev_plain` from the new submission, empty replies) and only then raises the
concurrent-request error, discarding the previously collected replies. -/
theorem c8_failed_submit_mutates {S : Nat} {A : Type}
    (c : QuorumClient S A) (prev : QuorumClock S)
    (merged : List (QuorumClock S)) (id : Fin S) (w : WorkingAnnounce S)
    (h : alistLookup c.working_announces id = some w) :
    onSubmitAnnounce c prev merged id =
      ({ c with working_announces := c.working_announces.map (fun p => if p.1 = id then (id, (⟨prev.plain, []⟩ : WorkingAnnounce S)) else p) }, [], Except.error ClientError.concurrentRequest) ∧
    alistLookup (onSubmitAnnounce c prev merged id).1.working_announces id =
      some ⟨prev.plain, []⟩ := by
  have h1 : alistInsert c.working_announces id ⟨prev.plain, []⟩ =
      (c.working_announces.map (fun p => if p.1 = id then (id, (⟨prev.plain, []⟩ : WorkingAnnounce S)) else p), some w) := by
    unfold alistInsert
    rw [h]
  constructor
  · simp only [onSubmitAnnounce, h1]
  · simp only [onSubmitAnnounce, h1]
    exact alistLookup_map_replace _ _ _ w h

/-- C8 witness: a client holding one reply for id 7 loses it on the failed
resubmission; the stored entry becomes the fresh one with empty replies. -/
theorem c8_failed_submit_mutates_witness :
    onSubmitAnnounce
        (⟨(), 1, [(7, ⟨sc_plain7, [(0, sc_reply 0)]⟩)]⟩ :
          QuorumClient 8 Unit)
        (QuorumClock.default 8) [] 7 =
      (⟨(), 1, [(7, ⟨(QuorumClock.default 8).plain, []⟩)]⟩, [],
        Except.error ClientError.concurrentRequest) ∧
    alistLookup (onSubmitAnnounce
        (⟨(), 1, [(7, ⟨sc_plain7, [(0, sc_reply 0)]⟩)]⟩ :
          QuorumClient 8 Unit)
        (QuorumClock.default 8) [] 7).1.working_announces 7 =
      some ⟨(QuorumClock.default 8).plain, []⟩ :=
  c8_failed_submit_mutates
    (⟨(), 1, [(7, ⟨sc_plain7, [(0, sc_reply 0)]⟩)]⟩ : QuorumClient 8 Unit)
    (QuorumClock.default 8) [] 7 ⟨sc_plain7, [(0, sc_reply 0)]⟩ (by decide)

/-- C9: after a successful `unset(timer_id)` on a reachable timer state, no
later loop iteration ever delivers a fire of that id to `on_timer`, whatever
events (including already-enqueued fires of the id) and handler timer
operations follow: the loop checks per-id liveness in `handles` at delivery
time, and the id counter never reissues an unset id. -/
theorem c9_unset_suppresses_fires {t t' : SessionTimer} {i : Nat}
    (hb : handlesBounded t) (hu : timerUnset t i = Except.ok t')
    (trace : List (SessionEvent × List TimerAction)) :
    i ∉ (sessionRun t' trace).2 := by
  have hd : timerDead t' i := by
    unfold timerUnset at hu
    by_cases hm : i ∈ t.handles
    · rw [if_pos hm] at hu
      injection hu with hu
      subst hu
      refine ⟨?_, hb i hm, ?_⟩
      · intro hmem
        have := List.of_mem_filter hmem
        simp at this
      · intro h hmem
        exact hb h (List.mem_of_mem_filter hmem)
    · rw [if_neg hm] at hu
      cases hu
  exact timerDead_sessionRun trace t' hd

/-- C9 witness: unsetting timer 1 and then delivering a stale fire of id 1, an
application event whose handler sets a new timer, and a fire of the new id 2:
only id 2 is delivered. -/
theorem c9_unset_suppresses_fires_witness :
    (1 : Nat) ∉ (sessionRun ⟨1, []⟩
      [(SessionEvent.timer 1, []), (SessionEvent.other, [TimerAction.set]),
       (SessionEvent.timer 2, [])]).2 :=
  @c9_unset_suppresses_fires ⟨1, [1]⟩ ⟨1, []⟩ 1
    (by intro h hm; simp at hm; subst hm; exact Nat.le.refl) (by decide)
    [(SessionEvent.timer 1, []), (SessionEvent.other, [TimerAction.set]),
     (SessionEvent.timer 2, [])]

/-- C10: `ImplHasher` writes every primitive integer type it overrides
(u16/u32/u64/usize/i16/i32/i64/isize) in little-endian byte order regardless
of the host byte order, so the byte stream fed to SHA-256 — and hence the
digest — of any message is independent of the host byte order. -/
theorem c10_digest_endian_independent :
    (∀ (host : Endian) (v : Nat),
        implHasherWrite host (HashWrite.u16 v) = natLEBytes 2 v ∧
        implHasherWrite host (HashWrite.u32 v) = natLEBytes 4 v ∧
        implHasherWrite host (HashWrite.u64 v) = natLEBytes 8 v ∧
        implHasherWrite host (HashWrite.usize v) = natLEBytes 8 v) ∧
    (∀ (host : Endian) (v : Int),
        implHasherWrite host (HashWrite.i16 v) = intLEBytes 2 v ∧
        implHasherWrite host (HashWrite.i32 v) = intLEBytes 4 v ∧
        implHasherWrite host (HashWrite.i64 v) = intLEBytes 8 v ∧
        implHasherWrite host (HashWrite.isize v) = intLEBytes 8 v) ∧
    ∀ (m : List HashWrite) (h1 h2 : Endian),
      digestByteStream h1 m = digestByteStream h2 m := by
  refine ⟨fun _ _ => ⟨rfl, rfl, rfl, rfl⟩, fun _ _ => ⟨rfl, rfl, rfl, rfl⟩, ?_⟩
  intro m h1 h2
  induction m with
  | nil => rfl
  | cons w rest ih =>
    have hw : implHasherWrite h1 w = implHasherWrite h2 w := by
      cases w <;> rfl
    have ihw : (rest.map (implHasherWrite h1)).flatten =
        (rest.map (implHasherWrite h2)).flatten := ih
    simp only [digestByteStream, List.map_cons, List.flatten_cons]
    rw [hw, ihw]
